import Mathlib

/-!
# QField: local files model and processing algorithm wrapper

A shallow embedding of `src/core/localfilesmodel.cpp` and
`src/core/processing/processingalgorithm.{h,cpp}`.

Calls into Qt and into the QGIS library are not part of the repository; they appear here as
fields of an environment record (`FileSystem`, `Qgis`) or as fields of the objects they belong
to, so every theorem holds for all behaviours of these libraries.
-/

namespace QField

/-! ## Part 1: `LocalFilesModel` -/

/-- The item kinds of `LocalFilesModel::ItemType` that `reloadModel` produces. -/
inductive ItemType where
  | Folder
  | Project
  | VectorDataset
  | RasterDataset
  deriving DecidableEq, Repr

/-- The record `LocalFilesModel::Item( type, title, format, path )`. -/
structure Item where
  type : ItemType
  title : String
  format : String
  path : String
  deriving DecidableEq, Repr

/-- What a `QFileInfo` built on a path reports about the file system. -/
structure QFileInfo where
  mExists : Bool
  isDir : Bool
  fileName : String
  absoluteFilePath : String
  deriving DecidableEq, Repr

/-- Embedding of `QFileInfo::completeSuffix()`: all characters of the file name after (not including) the
first dot; empty when the name has no dot. -/
def QFileInfo.completeSuffix (fi : QFileInfo) : String :=
  String.mk ((fi.fileName.toList.dropWhile (fun c => c != '.')).drop 1)

/-- Embedding of `QFileInfo::baseName()`: all characters of the file name up to (not including) the first
dot. -/
def QFileInfo.baseName (fi : QFileInfo) : String :=
  String.mk (fi.fileName.toList.takeWhile (fun c => c != '.'))

/-- The platform and library calls `LocalFilesModel` depends on, and the three extension
lists of `qgismobileapp.h`. -/
structure FileSystem where
  /-- The result of `PlatformUtilities::instance()->rootDirectories()`. -/
  rootDirectories : List String
  /-- The constructor `QFileInfo( path )`. -/
  fileInfo : String → QFileInfo
  /-- The test `QDir( path ).exists()`. -/
  dirExists : String → Bool
  /-- The listing `QDir( path ).entryList( Dirs | Files | NoDotAndDotDot, DirsFirst | IgnoreCase )`. -/
  entryList : String → List String
  /-- The character `QDir::separator()`, as a string. -/
  separator : String
  /-- The conversion `QString::toLower()`. -/
  toLower : String → String
  /-- The list `SUPPORTED_PROJECT_EXTENSIONS` of `qgismobileapp.h`. -/
  SUPPORTED_PROJECT_EXTENSIONS : List String
  /-- The list `SUPPORTED_VECTOR_EXTENSIONS` of `qgismobileapp.h`. -/
  SUPPORTED_VECTOR_EXTENSIONS : List String
  /-- The list `SUPPORTED_RASTER_EXTENSIONS` of `qgismobileapp.h`. -/
  SUPPORTED_RASTER_EXTENSIONS : List String

/-- The members `mHistory` and `mItems` of `LocalFilesModel`. -/
structure LocalFilesModel where
  mHistory : List String
  mItems : List Item
  deriving DecidableEq, Repr

/-- Embedding of `LocalFilesModel::currentPath`: the last history entry, or the null string. -/
def LocalFilesModel.currentPath (m : LocalFilesModel) : String :=
  match m.mHistory.getLast? with
  | some p => p
  | none => ""

/-- The four local lists of the directory branch of `reloadModel`. -/
structure Buckets where
  folders : List Item
  projects : List Item
  vectorDatasets : List Item
  rasterDatasets : List Item
  deriving DecidableEq, Repr

/-- Body of the loop over the root directories (lines 89-96). -/
def rootStep (fs : FileSystem) (mItems : List Item) (item : String) : List Item :=
  let fi := fs.fileInfo item
  if fi.mExists then
    mItems ++ [Item.mk ItemType.Folder fi.fileName "" fi.absoluteFilePath]
  else
    mItems

/-- Body of the loop over the directory entries (lines 108-131). -/
def entryStep (fs : FileSystem) (path : String) (b : Buckets) (item : String) : Buckets :=
  let fi := fs.fileInfo (path ++ fs.separator ++ item)
  if fi.isDir then
    { b with folders := b.folders ++ [Item.mk ItemType.Folder fi.fileName "" fi.absoluteFilePath] }
  else
    let suffix := fs.toLower fi.completeSuffix
    if fs.SUPPORTED_PROJECT_EXTENSIONS.contains suffix then
      { b with projects := b.projects ++ [Item.mk ItemType.Project fi.baseName suffix fi.absoluteFilePath] }
    else if fs.SUPPORTED_VECTOR_EXTENSIONS.contains suffix then
      { b with vectorDatasets :=
          b.vectorDatasets ++ [Item.mk ItemType.VectorDataset fi.baseName suffix fi.absoluteFilePath] }
    else if fs.SUPPORTED_RASTER_EXTENSIONS.contains suffix then
      { b with rasterDatasets :=
          b.rasterDatasets ++ [Item.mk ItemType.RasterDataset fi.baseName suffix fi.absoluteFilePath] }
    else
      b

/-- Embedding of `LocalFilesModel::reloadModel` (lines 80-137). -/
def LocalFilesModel.reloadModel (fs : FileSystem) (m : LocalFilesModel) : LocalFilesModel :=
  let mItems : List Item := []
  let path := m.currentPath
  if path = "root" then
    { m with mItems := fs.rootDirectories.foldl (rootStep fs) mItems }
  else if fs.dirExists path then
    let items := fs.entryList path
    let b := items.foldl (entryStep fs path) (Buckets.mk [] [] [] [])
    { m with mItems := mItems ++ b.folders ++ b.projects ++ b.vectorDatasets ++ b.rasterDatasets }
  else
    { m with mItems := mItems }

/-- Embedding of `LocalFilesModel::rowCount( parent )`; `parentIsValid` is `parent.isValid()`, false for the
default argument. -/
def LocalFilesModel.rowCount (m : LocalFilesModel) (parentIsValid : Bool) : Nat :=
  if !parentIsValid then m.mItems.length else 0

/-! ### Reading of the directory scan, as the specification words it -/

/-- The file-info records of the entries of a listing of directory `path`. -/
def entryInfos (fs : FileSystem) (path : String) (L : List String) : List QFileInfo :=
  L.map (fun item => fs.fileInfo (path ++ fs.separator ++ item))

/-- The lower-cased complete suffix of an entry. -/
def lowerSuffix (fs : FileSystem) (fi : QFileInfo) : String :=
  fs.toLower (String.mk ((fi.fileName.toList.dropWhile (fun c => c != '.')).drop 1))

/-- Classification of one entry as the specification states it: a directory is a folder, a
file is a project, else a vector dataset, else a raster dataset, by its lower-cased complete
suffix, and is omitted otherwise. -/
def classify (fs : FileSystem) (fi : QFileInfo) : Option ItemType :=
  if fi.isDir then some ItemType.Folder
  else if lowerSuffix fs fi ∈ fs.SUPPORTED_PROJECT_EXTENSIONS then some ItemType.Project
  else if lowerSuffix fs fi ∈ fs.SUPPORTED_VECTOR_EXTENSIONS then some ItemType.VectorDataset
  else if lowerSuffix fs fi ∈ fs.SUPPORTED_RASTER_EXTENSIONS then some ItemType.RasterDataset
  else none

/-- The item shown for an entry of kind `t`. -/
def itemOf (fs : FileSystem) (t : ItemType) (fi : QFileInfo) : Item :=
  match t with
  | ItemType.Folder => Item.mk ItemType.Folder fi.fileName "" fi.absoluteFilePath
  | t => Item.mk t fi.baseName (lowerSuffix fs fi) fi.absoluteFilePath

/-- The items of kind `t` of a listing, in the order of the listing. -/
def itemsOfKind (fs : FileSystem) (t : ItemType) (infos : List QFileInfo) : List Item :=
  (infos.filter (fun fi => classify fs fi = some t)).map (itemOf fs t)

/-- Whether a file-info record is a file whose lower-cased complete suffix is supported. -/
def isSupportedFile (fs : FileSystem) (fi : QFileInfo) : Bool :=
  !fi.isDir && (decide (lowerSuffix fs fi ∈ fs.SUPPORTED_PROJECT_EXTENSIONS)
    || decide (lowerSuffix fs fi ∈ fs.SUPPORTED_VECTOR_EXTENSIONS)
    || decide (lowerSuffix fs fi ∈ fs.SUPPORTED_RASTER_EXTENSIONS))

/-! ### A concrete file system used to exercise the theorems -/

/-- A small file system: one existing root, and a directory `/data` with five entries. -/
def demoFs : FileSystem where
  rootDirectories := ["/data", "/gone"]
  fileInfo := fun p =>
    if p = "/data" then QFileInfo.mk true true "data" "/data"
    else if p = "/data/maps" then QFileInfo.mk true true "maps" "/data/maps"
    else if p = "/data/town.QGZ" then QFileInfo.mk true false "town.QGZ" "/data/town.QGZ"
    else if p = "/data/roads.gpkg" then QFileInfo.mk true false "roads.gpkg" "/data/roads.gpkg"
    else if p = "/data/dem.tif" then QFileInfo.mk true false "dem.tif" "/data/dem.tif"
    else if p = "/data/notes.tar.gz" then
      QFileInfo.mk true false "notes.tar.gz" "/data/notes.tar.gz"
    else QFileInfo.mk false false "" p
  dirExists := fun p => decide (p = "/data")
  entryList := fun p =>
    if p = "/data" then ["maps", "dem.tif", "notes.tar.gz", "roads.gpkg", "town.QGZ"] else []
  separator := "/"
  toLower := fun s => String.mk (s.toList.map Char.toLower)
  SUPPORTED_PROJECT_EXTENSIONS := ["qgs", "qgz"]
  SUPPORTED_VECTOR_EXTENSIONS := ["gpkg", "shp"]
  SUPPORTED_RASTER_EXTENSIONS := ["tif"]

/-! ## Part 2: `ProcessingAlgorithm` -/

/-- Embedding of `QMap<K, T>`: key-value pairs kept in ascending key order, one pair per key. -/
abbrev QMap (K T : Type) := List (K × T)

/-- Embedding of `QMap::operator[]( key ) = value`: overwrite the value of `key`, or insert the pair at its
place in the key order `lt`. -/
def QMap.insert {K T : Type} [DecidableEq K] (lt : K → K → Bool) :
    QMap K T → K → T → QMap K T
  | [], k, v => [(k, v)]
  | (k0, v0) :: rest, k, v =>
    if k = k0 then (k, v) :: rest
    else if lt k k0 then (k, v) :: (k0, v0) :: rest
    else (k0, v0) :: QMap.insert lt rest k v

/-- Embedding of `QMap::keys()`. -/
def QMap.keys {K T : Type} (m : QMap K T) : List K :=
  m.map Prod.fst

/-- Embedding of `QgsAttributeMap`, a `QMap<int, QVariant>`. -/
abbrev QgsAttributeMap (V : Type) := QMap Int V

/-- Assignment `map[index] = value` on a `QgsAttributeMap`. -/
def QgsAttributeMap.insert {V : Type} (m : QgsAttributeMap V) (index : Int) (value : V) :
    QgsAttributeMap V :=
  QMap.insert (fun a b => decide (a < b)) m index value

/-- A value stored in the parameter map handed to the algorithm: a plain variant, a string, or
a `QgsProcessingFeatureSourceDefinition`. -/
inductive ParameterValue (V : Type) where
  | variant (v : V)
  | string (s : String)
  | featureSourceDefinition (source : String) (selectedFeaturesOnly : Bool) (featureLimit : Int)
      (filterExpression : String)
  deriving DecidableEq, Repr

/-- Embedding of `QVariantMap`, a `QMap<QString, QVariant>`. -/
abbrev QVariantMap (V : Type) := QMap String (ParameterValue V)

/-- Assignment `parameters[name] = value` on a `QVariantMap`. -/
def QVariantMap.insert {V : Type} (m : QVariantMap V) (name : String) (value : ParameterValue V) :
    QVariantMap V :=
  QMap.insert (fun a b => decide (a.toList < b.toList)) m name value

/-- A `QgsField`, reduced to its name. -/
structure QgsField where
  name : String
  deriving DecidableEq, Repr

/-- Embedding of `QgsFields::indexOf( fieldName )`: the index of the field of that name, or -1. -/
def QgsFields.indexOf (fields : List QgsField) (fieldName : String) : Int :=
  let i := (fields.map (fun f => f.name)).indexOf fieldName
  if i < fields.length then (i : Int) else -1

/-- A `QgsVectorLayer`, reduced to what `run` reads from it: its id and its fields. The edits
`run` issues to the layer are recorded as events. -/
structure QgsVectorLayer where
  id : String
  fields : List QgsField
  deriving DecidableEq, Repr

/-- A `QgsFeature`: feature id, geometry and attribute list, over variants `V` and
geometries `G`. -/
structure QgsFeature (V G : Type) where
  id : Int
  geometry : G
  attributes : List V
  deriving DecidableEq, Repr

/-- Embedding of `QgsFeature::attribute( fieldIdx )`: the attribute at that index, or the invalid variant
when the index is out of range. -/
def QgsFeature.attribute {V G : Type} (invalid : V) (f : QgsFeature V G) (fieldIdx : Int) : V :=
  if fieldIdx < 0 ∨ fieldIdx ≥ (f.attributes.length : Int) then invalid
  else f.attributes.getD fieldIdx.toNat invalid

/-- The part of the processing context `run` sets up: the layer scopes appended to the
expression context and the feature set on it. -/
structure QgsExpressionContext (V G : Type) where
  scopes : List QgsVectorLayer
  feature : Option (QgsFeature V G)
  deriving DecidableEq, Repr

/-- Embedding of `QgsExpressionContext::setFeature`. -/
def QgsExpressionContext.setFeature {V G : Type} (c : QgsExpressionContext V G)
    (f : QgsFeature V G) : QgsExpressionContext V G :=
  { c with feature := some f }

/-- The QGIS library calls `run` makes that are not methods of the algorithm. -/
structure Qgis (V G : Type) where
  /-- The default-constructed `QVariant()`. -/
  invalid : V
  /-- The comparison `QVariant::operator!=`. -/
  variantNe : V → V → Bool
  /-- The comparison `QgsAttributes::operator!=`. -/
  attributesNe : List V → List V → Bool
  /-- The test `QgsGeometry::equals`. -/
  geometryEquals : G → G → Bool
  /-- The conversion `QgsAttributes::toMap`. -/
  toMap : List V → QgsAttributeMap V
  /-- The call `QgsVectorLayerUtils::makeFeaturesCompatible( features, layer )`. -/
  makeFeaturesCompatible : List (QgsFeature V G) → QgsVectorLayer → List (QgsFeature V G)
  /-- The call `QgsVectorLayerUtils::createFeature( layer, geometry, attributes, context )`. -/
  createFeature : QgsVectorLayer → G → QgsAttributeMap V → QgsExpressionContext V G → QgsFeature V G

/-- A `QgsProcessingFeatureBasedAlgorithm`: the instance `create` returns has a state of type
`State`, which `prepare` and `processFeature` may read and change. -/
structure QgsProcessingFeatureBasedAlgorithm (V G : Type) where
  State : Type
  /-- The instance returned by `create( IN_PLACE = true )`. -/
  create : State
  prepare : State → QVariantMap V → QgsExpressionContext V G → Bool × State
  processFeature : State → QgsFeature V G → QgsExpressionContext V G → List (QgsFeature V G) × State

/-- A `QgsProcessingAlgorithm` of the registry; `featureBased` is the result of the
`dynamic_cast` to `QgsProcessingFeatureBasedAlgorithm`. -/
structure QgsProcessingAlgorithm (V G : Type) where
  displayName : String
  shortHelpString : String
  supportInPlaceEdit : QgsVectorLayer → Bool
  featureBased : Option (QgsProcessingFeatureBasedAlgorithm V G)

/-- A `ProcessingAlgorithmParametersModel`, reduced to its algorithm id and the parameter map
`toVariantMap()` returns. -/
structure ProcessingAlgorithmParametersModel (V : Type) where
  algorithmId : String
  toVariantMap : QVariantMap V

/-- The application services `ProcessingAlgorithm` calls. -/
structure Host (V G : Type) where
  /-- The lookup `processingRegistry()->algorithmById( id )`; `none` is the null pointer. -/
  algorithmById : String → Option (QgsProcessingAlgorithm V G)
  /-- The setter `ProcessingAlgorithmParametersModel::setAlgorithmId`. -/
  setAlgorithmId : ProcessingAlgorithmParametersModel V → String →
    ProcessingAlgorithmParametersModel V

/-- The private members of `ProcessingAlgorithm`. -/
structure ProcessingAlgorithm (V G : Type) where
  mAlgorithmId : String
  mAlgorithm : Option (QgsProcessingAlgorithm V G)
  mAlgorithmParametersModel : Option (ProcessingAlgorithmParametersModel V)
  mInPlaceLayer : Option QgsVectorLayer
  mInPlaceFeatures : List (QgsFeature V G)

/-- The object after its constructor: every member default-initialised. -/
def ProcessingAlgorithm.fresh (V G : Type) : ProcessingAlgorithm V G :=
  ProcessingAlgorithm.mk "" none none none []

/-- Embedding of `ProcessingAlgorithm::id`. -/
def ProcessingAlgorithm.id {V G : Type} (self : ProcessingAlgorithm V G) : String :=
  self.mAlgorithmId

/-- Embedding of `ProcessingAlgorithm::isValid`. -/
def ProcessingAlgorithm.isValid {V G : Type} (self : ProcessingAlgorithm V G) : Bool :=
  self.mAlgorithm.isSome

/-- Embedding of `ProcessingAlgorithm::setId` (lines 33-49). -/
def ProcessingAlgorithm.setId {V G : Type} (host : Host V G) (self : ProcessingAlgorithm V G)
    (id : String) : ProcessingAlgorithm V G :=
  if self.mAlgorithmId = id then self
  else
    { self with
      mAlgorithmId := id
      mAlgorithm := if !id.isEmpty then host.algorithmById id else none
      mAlgorithmParametersModel :=
        match self.mAlgorithmParametersModel with
        | some model => some (host.setAlgorithmId model id)
        | none => none }

/-- Embedding of `ProcessingAlgorithm::displayName`. -/
def ProcessingAlgorithm.displayName {V G : Type} (self : ProcessingAlgorithm V G) : String :=
  match self.mAlgorithm with
  | some a => a.displayName
  | none => ""

/-- Embedding of `ProcessingAlgorithm::shortHelp`. -/
def ProcessingAlgorithm.shortHelp {V G : Type} (self : ProcessingAlgorithm V G) : String :=
  match self.mAlgorithm with
  | some a => a.shortHelpString
  | none => ""

/-- The calls `run` makes on the in-place layer and on the algorithm instance, in the order
they are made. -/
inductive Event (V G : Type) where
  | startEditing
  | create
  | prepare (parameters : QVariantMap V)
  | processFeature (feature : QgsFeature V G)
  | deleteFeature (fid : Int)
  | changeGeometry (fid : Int) (geometry : G)
  | changeAttributeValues (fid : Int) (newValues oldValues : QgsAttributeMap V)
  | addFeatures (features : List (QgsFeature V G))
  | commitChanges
  deriving DecidableEq, Repr

/-- Body of the loop over the layer fields (lines 192-200): the pair is
`(newAttributes, oldAttributes)`. -/
def attributeStep {V G : Type} (q : Qgis V G) (fields : List QgsField)
    (output feature : QgsFeature V G) (maps : QgsAttributeMap V × QgsAttributeMap V)
    (field : QgsField) : QgsAttributeMap V × QgsAttributeMap V :=
  let index := QgsFields.indexOf fields field.name
  if q.variantNe (output.attribute q.invalid index) (feature.attribute q.invalid index) then
    (QgsAttributeMap.insert maps.1 index (output.attribute q.invalid index),
     QgsAttributeMap.insert maps.2 index (feature.attribute q.invalid index))
  else
    maps

/-- The layer edits of one loop iteration (lines 173-213), given the input feature and the
compatible output features. -/
def featureEdits {V G : Type} (q : Qgis V G) (layer : QgsVectorLayer)
    (context : QgsExpressionContext V G) (feature : QgsFeature V G)
    (outputFeatures : List (QgsFeature V G)) : List (Event V G) :=
  match outputFeatures with
  | [] => [Event.deleteFeature feature.id]
  | [output] =>
    let outputGeometry := output.geometry
    let edits : List (Event V G) :=
      if !q.geometryEquals outputGeometry feature.geometry then
        [Event.changeGeometry feature.id outputGeometry]
      else []
    if q.attributesNe output.attributes feature.attributes then
      let fields := layer.fields
      let maps := fields.foldl (attributeStep q fields output feature) ([], [])
      edits ++ [Event.changeAttributeValues feature.id maps.1 maps.2]
    else edits
  | _ :: _ :: _ =>
    let newFeatures := outputFeatures.foldl
      (fun newFeatures outputFeature =>
        newFeatures ++ [q.createFeature layer outputFeature.geometry
          (q.toMap outputFeature.attributes) context])
      []
    [Event.addFeatures newFeatures]

/-- The state carried through the loop over the in-place features. -/
structure LoopState (V G S : Type) where
  alg : S
  context : QgsExpressionContext V G
  trace : List (Event V G)

/-- Body of the loop over the in-place features (lines 166-214). -/
def inPlaceStep {V G : Type} (q : Qgis V G) (layer : QgsVectorLayer)
    (fba : QgsProcessingFeatureBasedAlgorithm V G) (st : LoopState V G fba.State)
    (feature : QgsFeature V G) : LoopState V G fba.State :=
  let context := st.context.setFeature feature
  let r := fba.processFeature st.alg feature context
  let outputFeatures := q.makeFeaturesCompatible r.1 layer
  { alg := r.2
    context := context
    trace := st.trace ++ [Event.processFeature feature]
      ++ featureEdits q layer context feature outputFeatures }

/-- The parameter map of the in-place path (lines 132-151): the model parameters with
`INPUT` set to the layer filtered on the ids of the in-place features and `OUTPUT` set to
`memory:`. -/
def inPlaceParameters {V G : Type} (parameters : QVariantMap V) (layer : QgsVectorLayer)
    (features : List (QgsFeature V G)) : QVariantMap V :=
  let featureIds := features.foldl (fun ids feature => ids ++ [toString feature.id]) []
  let parameters := QVariantMap.insert parameters "INPUT"
    (ParameterValue.featureSourceDefinition layer.id false (-1)
      ("$id IN (" ++ ",".intercalate featureIds ++ ")"))
  QVariantMap.insert parameters "OUTPUT" (ParameterValue.string "memory:")

/-- Embedding of `ProcessingAlgorithm::run` (lines 107-228): the returned flag and the calls made. -/
def ProcessingAlgorithm.run {V G : Type} (q : Qgis V G) (self : ProcessingAlgorithm V G) :
    Bool × List (Event V G) :=
  match self.mAlgorithm, self.mAlgorithmParametersModel with
  | some mAlgorithm, some model =>
    let context : QgsExpressionContext V G := QgsExpressionContext.mk [] none
    let parameters := model.toVariantMap
    match self.mInPlaceLayer with
    | some layer =>
      if self.mInPlaceFeatures.isEmpty || !mAlgorithm.supportInPlaceEdit layer then
        (false, [])
      else
        let context := { context with scopes := context.scopes ++ [layer] }
        let parameters := inPlaceParameters parameters layer self.mInPlaceFeatures
        match mAlgorithm.featureBased with
        | some fba =>
          let trace := [Event.startEditing, Event.create]
          let prepared := fba.prepare fba.create parameters context
          let trace := trace ++ [Event.prepare parameters]
          if !prepared.1 then
            (false, trace)
          else
            let st := self.mInPlaceFeatures.foldl (inPlaceStep q layer fba)
              (LoopState.mk prepared.2 context trace)
            (false, st.trace ++ [Event.commitChanges])
        | none => (false, [])
    | none => (false, [])
  | _, _ => (false, [])

/-- The link `setId` maintains between the stored id and the resolved algorithm. -/
def ProcessingAlgorithm.Resolved {V G : Type} (host : Host V G) (s : ProcessingAlgorithm V G) :
    Prop :=
  s.mAlgorithm = if s.mAlgorithmId = "" then none else host.algorithmById s.mAlgorithmId

/-! ### Readings of the edit trace used by the statements -/

/-- Whether a call is an edit of layer features. -/
def Event.isEdit {V G : Type} : Event V G → Bool
  | Event.deleteFeature _ => true
  | Event.changeGeometry _ _ => true
  | Event.changeAttributeValues _ _ _ => true
  | Event.addFeatures _ => true
  | _ => false

/-- Whether a call is made on the algorithm instance. -/
def Event.isAlgorithmCall {V G : Type} : Event V G → Bool
  | Event.create => true
  | Event.prepare _ => true
  | Event.processFeature _ => true
  | _ => false

/-- The id of the existing feature a call deletes or changes, if it does. -/
def Event.target {V G : Type} : Event V G → Option Int
  | Event.deleteFeature fid => some fid
  | Event.changeGeometry fid _ => some fid
  | Event.changeAttributeValues fid _ _ => some fid
  | _ => none

/-- The compatible output features of each in-place feature, in order, for an algorithm
instance starting in state `s`. -/
def compatibleOutputs {V G : Type} (q : Qgis V G) (layer : QgsVectorLayer)
    (fba : QgsProcessingFeatureBasedAlgorithm V G) (context : QgsExpressionContext V G) :
    fba.State → List (QgsFeature V G) → List (List (QgsFeature V G))
  | _, [] => []
  | s, f :: fs =>
    q.makeFeaturesCompatible (fba.processFeature s f (context.setFeature f)).1 layer
      :: compatibleOutputs q layer fba (context.setFeature f)
          (fba.processFeature s f (context.setFeature f)).2 fs

/-- The expression context each in-place feature is processed in. -/
def featureContext {V G : Type} (layer : QgsVectorLayer) (f : QgsFeature V G) :
    QgsExpressionContext V G :=
  QgsExpressionContext.mk [layer] (some f)

/-- How the edits `seg` issued for an input feature `f` depend on the number of compatible
output features `outs`, as the specification states it: none gives one `deleteFeature`, one
gives only geometry and attribute changes of `f`, two or more give one `addFeatures` with the
features created from the outputs, in their order. -/
def EditsDecidedByCount {V G : Type} (q : Qgis V G) (layer : QgsVectorLayer)
    (f : QgsFeature V G) (outs : List (QgsFeature V G)) (seg : List (Event V G)) : Prop :=
  (outs.length = 0 → seg = [Event.deleteFeature f.id])
  ∧ (outs.length = 1 → ∀ e ∈ seg,
      (∃ g, e = Event.changeGeometry f.id g) ∨ (∃ n o, e = Event.changeAttributeValues f.id n o))
  ∧ (2 ≤ outs.length →
      seg = [Event.addFeatures (outs.map (fun o =>
        q.createFeature layer o.geometry (q.toMap o.attributes) (featureContext layer f)))])

/-- The field indices at which the attributes of `o` and `f` differ, in ascending order. -/
def changedIndices {V G : Type} (q : Qgis V G) (layer : QgsVectorLayer)
    (o f : QgsFeature V G) : List Int :=
  ((List.range layer.fields.length).map Int.ofNat).filter
    (fun i => q.variantNe (o.attribute q.invalid i) (f.attribute q.invalid i))

/-- The edits `seg` issued for an input feature `f` whose single compatible output is `o`, as
the specification states them: `changeGeometry(f.id, o.geometry)` iff the geometries are not
equal, then `changeAttributeValues(f.id, new, old)` iff the attribute lists differ, where `new`
and `old` have the same keys, the field indices at which the attributes differ, and hold the
attributes of `o` and of `f` at these indices; no edit when both comparisons find no
difference. -/
def SingleOutputEdits {V G : Type} (q : Qgis V G) (layer : QgsVectorLayer)
    (f o : QgsFeature V G) (seg : List (Event V G)) : Prop :=
  ∃ newValues oldValues : QgsAttributeMap V,
    seg = (if q.geometryEquals o.geometry f.geometry then []
            else [Event.changeGeometry f.id o.geometry])
          ++ (if q.attributesNe o.attributes f.attributes then
                [Event.changeAttributeValues f.id newValues oldValues]
              else [])
    ∧ newValues.keys = changedIndices q layer o f
    ∧ oldValues.keys = changedIndices q layer o f
    ∧ (∀ i ∈ changedIndices q layer o f,
        List.lookup i newValues = some (o.attribute q.invalid i)
        ∧ List.lookup i oldValues = some (f.attribute q.invalid i))
    ∧ (q.geometryEquals o.geometry f.geometry = true →
        q.attributesNe o.attributes f.attributes = false → seg = [])

/-! ### Concrete objects used to exercise the theorems -/

/-- A library instance over variants `Option Int` (`none` is the invalid variant) and integer
geometries. -/
def demoQgis : Qgis (Option Int) Int where
  invalid := none
  variantNe := fun a b => a != b
  attributesNe := fun a b => a != b
  geometryEquals := fun a b => a == b
  toMap := fun attrs => attrs.enum.filterMap (fun p => p.2.map (fun v => ((p.1 : Int), some v)))
  makeFeaturesCompatible := fun features _ => features
  createFeature := fun _ g attrs _ => QgsFeature.mk 0 g (attrs.map Prod.snd)

/-- A layer with two fields. -/
def demoLayer : QgsVectorLayer :=
  QgsVectorLayer.mk "layer1" [QgsField.mk "name", QgsField.mk "height"]

/-- A feature-based algorithm: it deletes feature 1, moves feature 2 and sets its second
attribute to 7, splits feature 3 in two, and returns every other feature unchanged.
`prepare` answers `ok`. -/
def demoFeatureBased (ok : Bool) : QgsProcessingFeatureBasedAlgorithm (Option Int) Int where
  State := Nat
  create := 0
  prepare := fun s _ _ => (ok, s)
  processFeature := fun s f _ =>
    if f.id = 1 then ([], s + 1)
    else if f.id = 2 then
      ([QgsFeature.mk f.id (f.geometry + 1) [f.attributes.getD 0 none, some 7]], s + 1)
    else if f.id = 3 then ([f, QgsFeature.mk f.id (f.geometry + 1) f.attributes], s + 1)
    else ([f], s + 1)

/-- The registry entry of the algorithm above. -/
def demoAlgorithm (ok : Bool) : QgsProcessingAlgorithm (Option Int) Int where
  displayName := "Demo"
  shortHelpString := "A demonstration algorithm"
  supportInPlaceEdit := fun _ => true
  featureBased := some (demoFeatureBased ok)

/-- A host whose registry knows the single identifier `demo:alg`. -/
def demoHost : Host (Option Int) Int where
  algorithmById := fun id => if id = "demo:alg" then some (demoAlgorithm true) else none
  setAlgorithmId := fun model id => { model with algorithmId := id }

/-- A parameters model holding one parameter. -/
def demoModel : ProcessingAlgorithmParametersModel (Option Int) :=
  ProcessingAlgorithmParametersModel.mk "demo:alg" [("DISTANCE", ParameterValue.variant (some 5))]

/-- Four features of the demo layer. -/
def demoFeatures : List (QgsFeature (Option Int) Int) :=
  [QgsFeature.mk 1 10 [some 1, some 2], QgsFeature.mk 2 20 [some 3, some 4],
   QgsFeature.mk 3 30 [some 5, some 6], QgsFeature.mk 4 40 [some 8, some 9]]

/-- An object set up for an in-place run on the four features. -/
def demoInPlace (ok : Bool) : ProcessingAlgorithm (Option Int) Int :=
  ProcessingAlgorithm.mk "demo:alg" (some (demoAlgorithm ok)) (some demoModel) (some demoLayer)
    demoFeatures

/-- An object with a valid algorithm and a parameters model and no in-place layer. -/
def demoGlobal : ProcessingAlgorithm (Option Int) Int :=
  ProcessingAlgorithm.mk "demo:alg" (some (demoAlgorithm true)) (some demoModel) none []

/-! ### Proofs for `LocalFilesModel` -/

theorem rootStep_foldl (fs : FileSystem) (dirs : List String) (acc : List Item) :
    dirs.foldl (rootStep fs) acc
      = acc ++ ((dirs.map fs.fileInfo).filter (fun fi => fi.mExists)).map
          (fun fi => Item.mk ItemType.Folder fi.fileName "" fi.absoluteFilePath) := by
  induction dirs generalizing acc with
  | nil => simp
  | cons d ds ih =>
    simp only [List.foldl_cons, ih, List.map_cons]
    by_cases h : (fs.fileInfo d).mExists = true
    · simp [rootStep, h, List.filter_cons]
    · simp [rootStep, h, List.filter_cons]

theorem itemsOfKind_cons (fs : FileSystem) (t : ItemType) (fi : QFileInfo)
    (infos : List QFileInfo) :
    itemsOfKind fs t (fi :: infos) = itemsOfKind fs t [fi] ++ itemsOfKind fs t infos := by
  unfold itemsOfKind
  rw [← List.map_append, ← List.filter_append]
  rfl

theorem lowerSuffix_eq (fs : FileSystem) (fi : QFileInfo) :
    fs.toLower fi.completeSuffix = lowerSuffix fs fi := rfl

theorem entryStep_eq (fs : FileSystem) (path : String) (b : Buckets) (x : String) :
    entryStep fs path b x
      = Buckets.mk
          (b.folders ++ itemsOfKind fs ItemType.Folder [fs.fileInfo (path ++ fs.separator ++ x)])
          (b.projects ++ itemsOfKind fs ItemType.Project [fs.fileInfo (path ++ fs.separator ++ x)])
          (b.vectorDatasets
            ++ itemsOfKind fs ItemType.VectorDataset [fs.fileInfo (path ++ fs.separator ++ x)])
          (b.rasterDatasets
            ++ itemsOfKind fs ItemType.RasterDataset [fs.fileInfo (path ++ fs.separator ++ x)]) := by
  unfold entryStep
  generalize fs.fileInfo (path ++ fs.separator ++ x) = fi
  simp only [lowerSuffix_eq, itemsOfKind, classify, List.contains_eq_any_beq, List.any_eq_true,
    beq_iff_eq, exists_eq_right]
  by_cases hd : fi.isDir = true
  · simp [hd, itemOf]
  · by_cases hp : lowerSuffix fs fi ∈ fs.SUPPORTED_PROJECT_EXTENSIONS
    · simp [hd, hp, itemOf]
    · by_cases hv : lowerSuffix fs fi ∈ fs.SUPPORTED_VECTOR_EXTENSIONS
      · simp [hd, hp, hv, itemOf]
      · by_cases hr : lowerSuffix fs fi ∈ fs.SUPPORTED_RASTER_EXTENSIONS
        · simp [hd, hp, hv, hr, itemOf]
        · simp [hd, hp, hv, hr]

theorem entryStep_foldl (fs : FileSystem) (path : String) (L : List String) (b : Buckets) :
    L.foldl (entryStep fs path) b
      = Buckets.mk
          (b.folders ++ itemsOfKind fs ItemType.Folder (entryInfos fs path L))
          (b.projects ++ itemsOfKind fs ItemType.Project (entryInfos fs path L))
          (b.vectorDatasets ++ itemsOfKind fs ItemType.VectorDataset (entryInfos fs path L))
          (b.rasterDatasets ++ itemsOfKind fs ItemType.RasterDataset (entryInfos fs path L)) := by
  induction L generalizing b with
  | nil => simp [itemsOfKind, entryInfos]
  | cons x xs ih =>
    have hcons : entryInfos fs path (x :: xs)
        = fs.fileInfo (path ++ fs.separator ++ x) :: entryInfos fs path xs := rfl
    have key := fun t => itemsOfKind_cons fs t (fs.fileInfo (path ++ fs.separator ++ x))
      (entryInfos fs path xs)
    rw [List.foldl_cons, ih, entryStep_eq, hcons, key, key, key, key]
    simp only [List.append_assoc]

theorem filter_cons_length {α : Type} (p : α → Bool) (a : α) (l : List α) :
    ((a :: l).filter p).length = ([a].filter p).length + (l.filter p).length := by
  by_cases h : p a = true
  · simp [List.filter_cons, h]; omega
  · simp [List.filter_cons, h]

theorem filter_disjoint_length {α : Type} (p q : α → Bool) (l : List α)
    (h : ∀ a, p a = true → q a = false) :
    (l.filter p).length + (l.filter q).length ≤ l.length := by
  induction l with
  | nil => simp
  | cons a rest ih =>
    rw [filter_cons_length p, filter_cons_length q, List.length_cons]
    by_cases hp : p a = true
    · simp [List.filter_cons, hp, h a hp]; omega
    · by_cases hq : q a = true
      · simp [List.filter_cons, hp, hq]; omega
      · simp [List.filter_cons, hp, hq]; omega

theorem kind_count_one (fs : FileSystem) (fi : QFileInfo) :
    (itemsOfKind fs ItemType.Folder [fi]).length + (itemsOfKind fs ItemType.Project [fi]).length
        + (itemsOfKind fs ItemType.VectorDataset [fi]).length
        + (itemsOfKind fs ItemType.RasterDataset [fi]).length
      = ([fi].filter (fun fi => fi.isDir)).length + ([fi].filter (isSupportedFile fs)).length := by
  simp only [itemsOfKind, classify, isSupportedFile, List.filter_cons, List.filter_nil]
  by_cases hd : fi.isDir = true
  · simp [hd]
  · by_cases hp : lowerSuffix fs fi ∈ fs.SUPPORTED_PROJECT_EXTENSIONS
    · simp [hd, hp]
    · by_cases hv : lowerSuffix fs fi ∈ fs.SUPPORTED_VECTOR_EXTENSIONS
      · simp [hd, hp, hv]
      · by_cases hr : lowerSuffix fs fi ∈ fs.SUPPORTED_RASTER_EXTENSIONS
        · simp [hd, hp, hv, hr]
        · simp [hd, hp, hv, hr]

theorem kind_count (fs : FileSystem) (infos : List QFileInfo) :
    (itemsOfKind fs ItemType.Folder infos ++ itemsOfKind fs ItemType.Project infos
        ++ itemsOfKind fs ItemType.VectorDataset infos
        ++ itemsOfKind fs ItemType.RasterDataset infos).length
      = (infos.filter (fun fi => fi.isDir)).length
        + (infos.filter (isSupportedFile fs)).length := by
  induction infos with
  | nil => simp [itemsOfKind]
  | cons fi rest ih =>
    have h1 := kind_count_one fs fi
    rw [itemsOfKind_cons fs ItemType.Folder fi rest, itemsOfKind_cons fs ItemType.Project fi rest,
      itemsOfKind_cons fs ItemType.VectorDataset fi rest,
      itemsOfKind_cons fs ItemType.RasterDataset fi rest,
      filter_cons_length (fun fi => fi.isDir) fi rest,
      filter_cons_length (isSupportedFile fs) fi rest]
    simp only [List.length_append] at ih ⊢
    omega

theorem reloadModel_directory (fs : FileSystem) (m : LocalFilesModel)
    (hroot : m.currentPath ≠ "root") (hex : fs.dirExists m.currentPath = true) :
    (m.reloadModel fs).mItems
      = itemsOfKind fs ItemType.Folder (entryInfos fs m.currentPath (fs.entryList m.currentPath))
        ++ itemsOfKind fs ItemType.Project (entryInfos fs m.currentPath (fs.entryList m.currentPath))
        ++ itemsOfKind fs ItemType.VectorDataset
            (entryInfos fs m.currentPath (fs.entryList m.currentPath))
        ++ itemsOfKind fs ItemType.RasterDataset
            (entryInfos fs m.currentPath (fs.entryList m.currentPath)) := by
  simp [LocalFilesModel.reloadModel, hroot, hex, entryStep_foldl]

/-- C6: for an existing non-root directory with listing `L`, the item list after `reloadModel`
is `folders(L) ++ projects(L) ++ vectors(L) ++ rasters(L)`, each sublist in the order of `L`,
every directory entry being a Folder item and every file being classified by its lower-cased
complete suffix (project, else vector, else raster, else omitted); each entry yields at most
one item, and `rowCount()` is the number of directories plus the number of files with a
supported suffix. -/
theorem reloadModel_directory_scan (fs : FileSystem) (m : LocalFilesModel)
    (hroot : m.currentPath ≠ "root") (hex : fs.dirExists m.currentPath = true) :
    (m.reloadModel fs).mItems
        = itemsOfKind fs ItemType.Folder (entryInfos fs m.currentPath (fs.entryList m.currentPath))
          ++ itemsOfKind fs ItemType.Project
              (entryInfos fs m.currentPath (fs.entryList m.currentPath))
          ++ itemsOfKind fs ItemType.VectorDataset
              (entryInfos fs m.currentPath (fs.entryList m.currentPath))
          ++ itemsOfKind fs ItemType.RasterDataset
              (entryInfos fs m.currentPath (fs.entryList m.currentPath))
      ∧ (∀ fi ∈ entryInfos fs m.currentPath (fs.entryList m.currentPath),
          fi.isDir = true → classify fs fi = some ItemType.Folder)
      ∧ (m.reloadModel fs).rowCount false
        = ((entryInfos fs m.currentPath (fs.entryList m.currentPath)).filter
              (fun fi => fi.isDir)).length
          + ((entryInfos fs m.currentPath (fs.entryList m.currentPath)).filter
              (isSupportedFile fs)).length
      ∧ (m.reloadModel fs).rowCount false ≤ (fs.entryList m.currentPath).length := by
  have hitems := reloadModel_directory fs m hroot hex
  have hcount : (m.reloadModel fs).rowCount false
      = ((entryInfos fs m.currentPath (fs.entryList m.currentPath)).filter
            (fun fi => fi.isDir)).length
        + ((entryInfos fs m.currentPath (fs.entryList m.currentPath)).filter
            (isSupportedFile fs)).length := by
    simp only [LocalFilesModel.rowCount, hitems, Bool.not_false, if_true]
    exact kind_count fs _
  refine ⟨hitems, ?_, hcount, ?_⟩
  · intro fi _ hd
    simp [classify, hd]
  · rw [hcount]
    have hlen : (entryInfos fs m.currentPath (fs.entryList m.currentPath)).length
        = (fs.entryList m.currentPath).length := by simp [entryInfos]
    rw [← hlen]
    exact filter_disjoint_length _ _ _ (fun fi hd => by simp [isSupportedFile, hd])

theorem reloadModel_directory_scan_witness :
    ((LocalFilesModel.mk ["root", "/data"] []).reloadModel demoFs).mItems
        = [Item.mk ItemType.Folder "maps" "" "/data/maps",
           Item.mk ItemType.Project "town" "qgz" "/data/town.QGZ",
           Item.mk ItemType.VectorDataset "roads" "gpkg" "/data/roads.gpkg",
           Item.mk ItemType.RasterDataset "dem" "tif" "/data/dem.tif"]
      ∧ ((LocalFilesModel.mk ["root", "/data"] []).reloadModel demoFs).rowCount false = 1 + 3
      ∧ ((LocalFilesModel.mk ["root", "/data"] []).reloadModel demoFs).rowCount false ≤ 5 :=
  ⟨(reloadModel_directory_scan demoFs (LocalFilesModel.mk ["root", "/data"] [])
      (by decide) (by decide)).1.trans (by decide),
    (reloadModel_directory_scan demoFs (LocalFilesModel.mk ["root", "/data"] [])
      (by decide) (by decide)).2.2.1.trans (by decide),
    (reloadModel_directory_scan demoFs (LocalFilesModel.mk ["root", "/data"] [])
      (by decide) (by decide)).2.2.2⟩

/-- C7: when the current path is "root" the item list after `reloadModel` is exactly one
Folder item (empty format, title = file name, path = absolute path) per existing platform
root directory, in the order of `rootDirectories()`, non-existing ones skipped; when the
current path is a non-root directory that does not exist the item list is empty and
`rowCount()` is 0, whatever the list held before. -/
theorem reloadModel_existence_checks (fs : FileSystem) (m : LocalFilesModel) :
    (m.currentPath = "root" →
        (m.reloadModel fs).mItems
          = ((fs.rootDirectories.map fs.fileInfo).filter (fun fi => fi.mExists)).map
              (fun fi => Item.mk ItemType.Folder fi.fileName "" fi.absoluteFilePath))
      ∧ (m.currentPath ≠ "root" → fs.dirExists m.currentPath = false →
          (m.reloadModel fs).mItems = [] ∧ (m.reloadModel fs).rowCount false = 0) := by
  constructor
  · intro h
    simp [LocalFilesModel.reloadModel, h, rootStep_foldl]
  · intro h hex
    simp [LocalFilesModel.reloadModel, LocalFilesModel.rowCount, h, hex]

theorem reloadModel_existence_checks_witness :
    ((LocalFilesModel.mk ["root"] [Item.mk ItemType.Project "old" "qgs" "/old.qgs"]).reloadModel
        demoFs).mItems = [Item.mk ItemType.Folder "data" "" "/data"]
      ∧ ((LocalFilesModel.mk ["/gone"] [Item.mk ItemType.Project "old" "qgs" "/old.qgs"]).reloadModel
          demoFs).mItems = [] := by
  constructor
  · have h := (reloadModel_existence_checks demoFs
      (LocalFilesModel.mk ["root"] [Item.mk ItemType.Project "old" "qgs" "/old.qgs"])).1
      (by decide)
    rw [h]
    decide
  · exact ((reloadModel_existence_checks demoFs
      (LocalFilesModel.mk ["/gone"] [Item.mk ItemType.Project "old" "qgs" "/old.qgs"])).2
      (by decide) (by decide)).1

/-! ### Proofs for `ProcessingAlgorithm` -/

theorem loop_trace {V G : Type} (q : Qgis V G) (layer : QgsVectorLayer)
    (fba : QgsProcessingFeatureBasedAlgorithm V G) (features : List (QgsFeature V G))
    (st : LoopState V G fba.State) :
    (features.foldl (inPlaceStep q layer fba) st).trace
      = st.trace ++ (features.zip (compatibleOutputs q layer fba st.context st.alg features)).flatMap
          (fun p => Event.processFeature p.1
            :: featureEdits q layer (st.context.setFeature p.1) p.1 p.2) := by
  induction features generalizing st with
  | nil => simp [compatibleOutputs]
  | cons f fs ih =>
    rw [List.foldl_cons, ih]
    simp [inPlaceStep, compatibleOutputs, QgsExpressionContext.setFeature]

theorem run_in_place_eq {V G : Type} (q : Qgis V G) (self : ProcessingAlgorithm V G)
    (a : QgsProcessingAlgorithm V G) (model : ProcessingAlgorithmParametersModel V)
    (layer : QgsVectorLayer) (fba : QgsProcessingFeatureBasedAlgorithm V G)
    (ha : self.mAlgorithm = some a) (hm : self.mAlgorithmParametersModel = some model)
    (hl : self.mInPlaceLayer = some layer)
    (hg : (self.mInPlaceFeatures.isEmpty || !a.supportInPlaceEdit layer) = false)
    (hfb : a.featureBased = some fba) :
    self.run q
      = if (fba.prepare fba.create
              (inPlaceParameters model.toVariantMap layer self.mInPlaceFeatures)
              (QgsExpressionContext.mk [layer] none)).1 = true then
          (false,
            [Event.startEditing, Event.create,
              Event.prepare (inPlaceParameters model.toVariantMap layer self.mInPlaceFeatures)]
            ++ (self.mInPlaceFeatures.zip (compatibleOutputs q layer fba
                  (QgsExpressionContext.mk [layer] none)
                  (fba.prepare fba.create
                    (inPlaceParameters model.toVariantMap layer self.mInPlaceFeatures)
                    (QgsExpressionContext.mk [layer] none)).2 self.mInPlaceFeatures)).flatMap
                (fun p => Event.processFeature p.1
                  :: featureEdits q layer (featureContext layer p.1) p.1 p.2)
            ++ [Event.commitChanges])
        else
          (false,
            [Event.startEditing, Event.create,
              Event.prepare (inPlaceParameters model.toVariantMap layer self.mInPlaceFeatures)]) := by
  unfold ProcessingAlgorithm.run
  simp only [ha, hm, hl, hg, hfb, Bool.false_eq_true, if_false, List.nil_append]
  by_cases hp : (fba.prepare fba.create
      (inPlaceParameters model.toVariantMap layer self.mInPlaceFeatures)
      (QgsExpressionContext.mk [layer] none)).1 = true
  · simp only [hp, Bool.not_true, Bool.false_eq_true, if_false, if_true, loop_trace]
    rfl
  · simp only [hp, Bool.not_eq_true] at hp ⊢
    simp [hp]

/-- The three shapes the trace of `run` can take. -/
theorem run_trace_shape {V G : Type} (q : Qgis V G) (self : ProcessingAlgorithm V G) :
    (self.run q).2 = []
    ∨ (∃ parameters, (self.run q).2
        = [Event.startEditing, Event.create, Event.prepare parameters])
    ∨ (∃ (layer : QgsVectorLayer) (fba : QgsProcessingFeatureBasedAlgorithm V G)
        (s : fba.State) (parameters : QVariantMap V),
        (self.run q).2 = [Event.startEditing, Event.create, Event.prepare parameters]
          ++ (self.mInPlaceFeatures.zip (compatibleOutputs q layer fba
                (QgsExpressionContext.mk [layer] none) s self.mInPlaceFeatures)).flatMap
              (fun p => Event.processFeature p.1
                :: featureEdits q layer (featureContext layer p.1) p.1 p.2)
          ++ [Event.commitChanges]) := by
  cases ha : self.mAlgorithm with
  | none => exact Or.inl (by simp [ProcessingAlgorithm.run, ha])
  | some a =>
    cases hm : self.mAlgorithmParametersModel with
    | none => exact Or.inl (by simp [ProcessingAlgorithm.run, ha, hm])
    | some model =>
      cases hl : self.mInPlaceLayer with
      | none => exact Or.inl (by simp [ProcessingAlgorithm.run, ha, hm, hl])
      | some layer =>
        cases hg : (self.mInPlaceFeatures.isEmpty || !a.supportInPlaceEdit layer) with
        | true => exact Or.inl (by simp [ProcessingAlgorithm.run, ha, hm, hl, hg])
        | false =>
          cases hfb : a.featureBased with
          | none => exact Or.inl (by simp [ProcessingAlgorithm.run, ha, hm, hl, hg, hfb])
          | some fba =>
            rw [run_in_place_eq q self a model layer fba ha hm hl hg hfb]
            split
            · exact Or.inr (Or.inr ⟨layer, fba, _, _, rfl⟩)
            · exact Or.inr (Or.inl ⟨_, rfl⟩)

theorem featureEdits_target {V G : Type} (q : Qgis V G) (layer : QgsVectorLayer)
    (context : QgsExpressionContext V G) (f : QgsFeature V G) (outs : List (QgsFeature V G))
    (e : Event V G) (he : e ∈ featureEdits q layer context f outs) (fid : Int)
    (ht : e.target = some fid) : fid = f.id := by
  unfold featureEdits at he
  split at he
  · simp at he
    subst he
    simpa [Event.target] using ht.symm
  · dsimp only at he
    split at he
    · rcases List.mem_append.1 he with h | h
      · split at h
        · simp at h
          subst h
          simpa [Event.target] using ht.symm
        · simp at h
      · simp at h
        subst h
        simpa [Event.target] using ht.symm
    · split at he
      · simp at he
        subst he
        simpa [Event.target] using ht.symm
      · simp at he
  · simp at he
    subst he
    simp [Event.target] at ht

theorem run_fst {V G : Type} (q : Qgis V G) (self : ProcessingAlgorithm V G) :
    (self.run q).1 = false := by
  unfold ProcessingAlgorithm.run
  split
  · split
    · split
      · rfl
      · split
        · dsimp only
          split <;> rfl
        · rfl
    · rfl
  · rfl

/-- C9: `run` returns false in every state of the object and for every behaviour of the
algorithm and of the library, also after a feature-based in-place algorithm was prepared, all
features were processed and `commitChanges` was called; no path returns true. -/
theorem run_returns_false {V G : Type} (q : Qgis V G) (self : ProcessingAlgorithm V G) :
    (self.run q).1 = false :=
  run_fst q self

/-- C4: if no algorithm is resolved, or no parameters model is set, or an in-place layer is
set but the in-place feature list is empty, or the algorithm does not support in-place edits
of the layer, then `run` returns false without calling `startEditing` and without issuing
any delete, change or add edit. -/
theorem run_not_permitted {V G : Type} (q : Qgis V G) (self : ProcessingAlgorithm V G)
    (h : self.mAlgorithm.isSome = false ∨ self.mAlgorithmParametersModel.isSome = false
      ∨ (self.mInPlaceLayer.isSome = true ∧ self.mInPlaceFeatures = [])
      ∨ (∃ a layer, self.mAlgorithm = some a ∧ self.mInPlaceLayer = some layer
          ∧ a.supportInPlaceEdit layer = false)) :
    (self.run q).1 = false ∧ Event.startEditing ∉ (self.run q).2
      ∧ ∀ e ∈ (self.run q).2, e.isEdit = false := by
  have hnil : (self.run q).2 = [] := by
    unfold ProcessingAlgorithm.run
    rcases h with h | h | ⟨h1, h2⟩ | ⟨a, layer, h1, h2, h3⟩
    · cases ha : self.mAlgorithm with
      | none => rfl
      | some a => simp [ha] at h
    · cases ha : self.mAlgorithm with
      | none => rfl
      | some a =>
        cases hm : self.mAlgorithmParametersModel with
        | none => rfl
        | some m => simp [hm] at h
    · cases ha : self.mAlgorithm with
      | none => rfl
      | some a =>
        cases hm : self.mAlgorithmParametersModel with
        | none => rfl
        | some m =>
          cases hl : self.mInPlaceLayer with
          | none => rfl
          | some layer => simp [h2]
    · cases hm : self.mAlgorithmParametersModel with
      | none => simp [h1]
      | some m => simp [h1, h2, h3]
  refine ⟨run_fst q self, ?_, ?_⟩
  · simp [hnil]
  · simp [hnil]

theorem run_not_permitted_witness :
    ((ProcessingAlgorithm.mk "demo:alg" (some (demoAlgorithm true)) (some demoModel)
        (some demoLayer) []).run demoQgis).1 = false
      ∧ Event.startEditing ∉ ((ProcessingAlgorithm.mk "demo:alg" (some (demoAlgorithm true))
          (some demoModel) (some demoLayer) []).run demoQgis).2
      ∧ ∀ e ∈ ((ProcessingAlgorithm.mk "demo:alg" (some (demoAlgorithm true)) (some demoModel)
          (some demoLayer) []).run demoQgis).2, e.isEdit = false :=
  run_not_permitted demoQgis
    (ProcessingAlgorithm.mk "demo:alg" (some (demoAlgorithm true)) (some demoModel)
      (some demoLayer) [])
    (Or.inr (Or.inr (Or.inl ⟨rfl, rfl⟩)))

/-- C3: every `deleteFeature`, `changeGeometry` and `changeAttributeValues` call `run` issues
targets the id of a feature of `inPlaceFeatures`; a feature id outside that subset is never
deleted and never has its geometry or attributes changed. -/
theorem run_edits_target_in_place_features {V G : Type} (q : Qgis V G)
    (self : ProcessingAlgorithm V G) :
    (∀ e ∈ (self.run q).2, ∀ fid, e.target = some fid →
        ∃ f ∈ self.mInPlaceFeatures, f.id = fid)
      ∧ (∀ fid, (∀ f ∈ self.mInPlaceFeatures, f.id ≠ fid) →
          Event.deleteFeature fid ∉ (self.run q).2
          ∧ (∀ g, Event.changeGeometry fid g ∉ (self.run q).2)
          ∧ (∀ n o, Event.changeAttributeValues fid n o ∉ (self.run q).2)) := by
  have main : ∀ e ∈ (self.run q).2, ∀ fid, e.target = some fid →
      ∃ f ∈ self.mInPlaceFeatures, f.id = fid := by
    intro e he fid ht
    rcases run_trace_shape q self with h | ⟨parameters, h⟩ | ⟨layer, fba, s, parameters, h⟩
    · rw [h] at he
      simp at he
    · rw [h] at he
      simp only [List.mem_cons, List.mem_singleton, List.not_mem_nil, or_false] at he
      rcases he with rfl | rfl | rfl <;> simp [Event.target] at ht
    · rw [h] at he
      simp only [List.mem_append, List.mem_cons, List.mem_singleton, List.not_mem_nil, or_false,
        List.mem_flatMap] at he
      rcases he with ((rfl | rfl | rfl) | ⟨p, hp, hep⟩) | rfl
      · simp [Event.target] at ht
      · simp [Event.target] at ht
      · simp [Event.target] at ht
      · rcases hep with rfl | hep
        · simp [Event.target] at ht
        · exact ⟨p.1, (List.of_mem_zip hp).1,
            (featureEdits_target q layer _ p.1 p.2 e hep fid ht).symm⟩
      · simp [Event.target] at ht
  refine ⟨main, ?_⟩
  intro fid hfid
  refine ⟨?_, ?_, ?_⟩
  · intro hmem
    obtain ⟨f, hf, hid⟩ := main _ hmem fid rfl
    exact hfid f hf hid
  · intro g hmem
    obtain ⟨f, hf, hid⟩ := main _ hmem fid rfl
    exact hfid f hf hid
  · intro n o hmem
    obtain ⟨f, hf, hid⟩ := main _ hmem fid rfl
    exact hfid f hf hid

theorem run_edits_target_in_place_features_witness :
    (∃ f ∈ (demoInPlace true).mInPlaceFeatures, f.id = 1)
      ∧ Event.deleteFeature 7 ∉ ((demoInPlace true).run demoQgis).2 :=
  ⟨(run_edits_target_in_place_features demoQgis (demoInPlace true)).1
      (Event.deleteFeature 1) (by decide) 1 rfl,
    ((run_edits_target_in_place_features demoQgis (demoInPlace true)).2 7 (by decide)).1⟩

/-- C2 fails as stated: on an object with a valid algorithm, a parameters model and no
in-place layer, `run` makes no call on the algorithm at all. -/
theorem run_global_makes_no_algorithm_call :
    demoGlobal.isValid = true ∧ demoGlobal.mAlgorithmParametersModel.isSome = true
      ∧ demoGlobal.mInPlaceLayer = none
      ∧ ¬ (∃ e ∈ (demoGlobal.run demoQgis).2, e.isAlgorithmCall = true)
      ∧ Event.prepare demoModel.toVariantMap ∉ (demoGlobal.run demoQgis).2 := by
  refine ⟨rfl, rfl, rfl, ?_, ?_⟩
  · simp [ProcessingAlgorithm.run, demoGlobal]
  · simp [ProcessingAlgorithm.run, demoGlobal]

/-- C2, amended: for every state with a valid algorithm and a parameters model and no
in-place layer set, `run` does not invoke the algorithm: it makes no call on the algorithm
instance (no `create`, `prepare` or `processFeature`) and no call on a layer, and returns
false. -/
theorem run_without_layer {V G : Type} (q : Qgis V G) (self : ProcessingAlgorithm V G)
    (hv : self.isValid = true) (hm : self.mAlgorithmParametersModel.isSome = true)
    (hl : self.mInPlaceLayer = none) :
    (self.run q).1 = false ∧ (self.run q).2 = []
      ∧ ∀ e ∈ (self.run q).2, e.isAlgorithmCall = false := by
  have h : self.run q = (false, []) := by
    unfold ProcessingAlgorithm.run
    cases ha : self.mAlgorithm with
    | none => simp [ProcessingAlgorithm.isValid, ha] at hv
    | some a =>
      cases hm2 : self.mAlgorithmParametersModel with
      | none => simp [hm2] at hm
      | some model => simp [hl]
  rw [h]
  exact ⟨rfl, rfl, by simp⟩

theorem run_without_layer_witness :
    (demoGlobal.run demoQgis).1 = false ∧ (demoGlobal.run demoQgis).2 = []
      ∧ ∀ e ∈ (demoGlobal.run demoQgis).2, e.isAlgorithmCall = false :=
  run_without_layer demoQgis demoGlobal rfl rfl rfl

/-- C10 is violated by the code: when `prepare` fails on a feature-based in-place run, `run`
has called `startEditing` and returns without calling `commitChanges`. -/
theorem run_prepare_failure_leaves_session_open :
    (demoInPlace false).run demoQgis
        = (false, [Event.startEditing, Event.create,
            Event.prepare [("DISTANCE", ParameterValue.variant (some 5)),
              ("INPUT", ParameterValue.featureSourceDefinition "layer1" false (-1)
                "$id IN (1,2,3,4)"),
              ("OUTPUT", ParameterValue.string "memory:")]])
      ∧ Event.startEditing ∈ ((demoInPlace false).run demoQgis).2
      ∧ Event.commitChanges ∉ ((demoInPlace false).run demoQgis).2 := by
  refine ⟨?_, ?_, ?_⟩
  · decide
  · decide
  · decide

theorem setId_resolved {V G : Type} (host : Host V G) (s : ProcessingAlgorithm V G)
    (id : String) (h : s.Resolved host) : (s.setId host id).Resolved host := by
  unfold ProcessingAlgorithm.setId
  by_cases hid : s.mAlgorithmId = id
  · simpa [hid] using h
  · by_cases he : id = ""
    · subst he
      simp only [hid, ProcessingAlgorithm.Resolved, if_false, if_true]
      have hempty : ("" : String).isEmpty = true := by decide
      simp [hempty]
    · have hne : id.isEmpty = false := by
        cases hb : id.isEmpty with
        | false => rfl
        | true => exact absurd ((String.isEmpty_iff id).1 hb) he
      simp [hid, ProcessingAlgorithm.Resolved, he, hne]

theorem setId_foldl_resolved {V G : Type} (host : Host V G) (ids : List String)
    (s : ProcessingAlgorithm V G) (h : s.Resolved host) :
    (ids.foldl (ProcessingAlgorithm.setId host) s).Resolved host := by
  induction ids generalizing s with
  | nil => exact h
  | cons id rest ih => exact ih _ (setId_resolved host s id h)

theorem setId_id {V G : Type} (host : Host V G) (s : ProcessingAlgorithm V G) (id : String) :
    (s.setId host id).mAlgorithmId = id := by
  unfold ProcessingAlgorithm.setId
  by_cases hid : s.mAlgorithmId = id
  · simp [hid]
  · simp [hid]

/-- C5: for a fixed registry and every sequence of `setId` calls on a freshly constructed
object, `isValid()` holds if and only if `id()` is non-empty and the registry has an
algorithm with identifier `id()`; a further `setId("")` makes `isValid()` false; and
`displayName()` and `shortHelp()` are empty whenever `isValid()` is false. -/
theorem setId_isValid_iff {V G : Type} (host : Host V G) (ids : List String) :
    ((ids.foldl (ProcessingAlgorithm.setId host) (ProcessingAlgorithm.fresh V G)).isValid = true
        ↔ (ids.foldl (ProcessingAlgorithm.setId host) (ProcessingAlgorithm.fresh V G)).id ≠ ""
          ∧ (host.algorithmById
              (ids.foldl (ProcessingAlgorithm.setId host)
                (ProcessingAlgorithm.fresh V G)).id).isSome = true)
      ∧ ((ids.foldl (ProcessingAlgorithm.setId host) (ProcessingAlgorithm.fresh V G)).setId
            host "").isValid = false
      ∧ ((ids.foldl (ProcessingAlgorithm.setId host) (ProcessingAlgorithm.fresh V G)).isValid
            = false →
          (ids.foldl (ProcessingAlgorithm.setId host)
              (ProcessingAlgorithm.fresh V G)).displayName = ""
            ∧ (ids.foldl (ProcessingAlgorithm.setId host)
                (ProcessingAlgorithm.fresh V G)).shortHelp = "") := by
  have hfresh : (ProcessingAlgorithm.fresh V G).Resolved host := by
    simp [ProcessingAlgorithm.Resolved, ProcessingAlgorithm.fresh]
  have hres := setId_foldl_resolved host ids _ hfresh
  have hres2 := setId_resolved host _ "" hres
  generalize ids.foldl (ProcessingAlgorithm.setId host) (ProcessingAlgorithm.fresh V G) = s
    at hres hres2
  refine ⟨?_, ?_, ?_⟩
  · unfold ProcessingAlgorithm.Resolved at hres
    unfold ProcessingAlgorithm.isValid ProcessingAlgorithm.id
    rw [hres]
    by_cases he : s.mAlgorithmId = ""
    · simp [he]
    · simp [he]
  · unfold ProcessingAlgorithm.Resolved at hres2
    unfold ProcessingAlgorithm.isValid
    rw [hres2, setId_id]
    simp
  · intro hv
    unfold ProcessingAlgorithm.isValid at hv
    unfold ProcessingAlgorithm.displayName ProcessingAlgorithm.shortHelp
    cases ha : s.mAlgorithm with
    | none => exact ⟨rfl, rfl⟩
    | some a => simp [ha] at hv

theorem setId_isValid_iff_witness :
    (["demo:alg", "other"].foldl (ProcessingAlgorithm.setId demoHost)
        (ProcessingAlgorithm.fresh (Option Int) Int)).displayName = ""
      ∧ (["demo:alg", "other"].foldl (ProcessingAlgorithm.setId demoHost)
          (ProcessingAlgorithm.fresh (Option Int) Int)).shortHelp = "" :=
  (setId_isValid_iff demoHost ["demo:alg", "other"]).2.2 (by decide)

theorem foldl_append_singleton {α β : Type} (g : α → β) (l : List α) (init : List β) :
    l.foldl (fun acc o => acc ++ [g o]) init = init ++ l.map g := by
  induction l generalizing init with
  | nil => simp
  | cons x xs ih => simp [ih]

theorem featureEdits_decided {V G : Type} (q : Qgis V G) (layer : QgsVectorLayer)
    (f : QgsFeature V G) (outs : List (QgsFeature V G)) :
    EditsDecidedByCount q layer f outs (featureEdits q layer (featureContext layer f) f outs) := by
  unfold EditsDecidedByCount
  match outs with
  | [] => simp [featureEdits]
  | [o] =>
    refine ⟨by simp, ?_, by simp⟩
    intro _ e he
    simp only [featureEdits] at he
    split at he
    · rcases List.mem_append.1 he with h | h
      · split at h
        · exact Or.inl ⟨_, by simpa using h⟩
        · simp at h
      · exact Or.inr ⟨_, _, by simpa using h⟩
    · split at he
      · exact Or.inl ⟨_, by simpa using he⟩
      · simp at he
  | o1 :: o2 :: rest =>
    refine ⟨by simp, by simp, ?_⟩
    intro _
    simp only [featureEdits]
    rw [foldl_append_singleton (fun (o : QgsFeature V G) =>
      q.createFeature layer o.geometry (q.toMap o.attributes) (featureContext layer f))]
    simp

theorem featureEdits_isEdit {V G : Type} (q : Qgis V G) (layer : QgsVectorLayer)
    (context : QgsExpressionContext V G) (f : QgsFeature V G) (outs : List (QgsFeature V G)) :
    (featureEdits q layer context f outs).filter Event.isEdit
      = featureEdits q layer context f outs := by
  rw [List.filter_eq_self]
  intro e he
  unfold featureEdits at he
  split at he
  · simp at he
    subst he
    rfl
  · dsimp only at he
    split at he
    · rcases List.mem_append.1 he with h | h
      · split at h
        · simp at h
          subst h
          rfl
        · simp at h
      · simp at h
        subst h
        rfl
    · split at he
      · simp at he
        subst he
        rfl
      · simp at he
  · simp at he
    subst he
    rfl

theorem zip_map_flatMap {α β γ δ : Type} (g : α × β → γ) (h : α → γ → List δ)
    (xs : List α) (ys : List β) :
    (xs.zip ((xs.zip ys).map g)).flatMap (fun p => h p.1 p.2)
      = (xs.zip ys).flatMap (fun p => h p.1 (g p)) := by
  induction xs generalizing ys with
  | nil => simp
  | cons x xs ih =>
    cases ys with
    | nil => simp
    | cons y ys => simp [ih]

theorem filter_edits_flatMap {V G : Type} (q : Qgis V G) (layer : QgsVectorLayer)
    (Z : List (QgsFeature V G × List (QgsFeature V G))) :
    (Z.flatMap (fun p => Event.processFeature p.1
        :: featureEdits q layer (featureContext layer p.1) p.1 p.2)).filter Event.isEdit
      = (Z.map (fun p => featureEdits q layer (featureContext layer p.1) p.1 p.2)).flatten := by
  induction Z with
  | nil => simp
  | cons p rest ih =>
    simp only [List.flatMap_cons, List.filter_append, List.map_cons, List.flatten_cons, ih]
    simp [List.filter_cons, Event.isEdit, featureEdits_isEdit]

/-- C1: in the in-place, feature-based path of `run` the trace is `startEditing`, `create`,
`prepare`, then for each feature of `inPlaceFeatures`, in order, `processFeature` followed by
the edits for that feature, then `commitChanges`; the edits for a feature `f` are decided by
the number `n` of compatible output features: one `deleteFeature(f.id)` and nothing else for
`n = 0`, only `changeGeometry` / `changeAttributeValues` on `f.id` for `n = 1`, and exactly one
`addFeatures` carrying the `n` features created from the outputs in their order for
`n >= 2`. -/
theorem run_in_place_edits {V G : Type} (q : Qgis V G) (self : ProcessingAlgorithm V G)
    (a : QgsProcessingAlgorithm V G) (model : ProcessingAlgorithmParametersModel V)
    (layer : QgsVectorLayer) (fba : QgsProcessingFeatureBasedAlgorithm V G)
    (ha : self.mAlgorithm = some a) (hm : self.mAlgorithmParametersModel = some model)
    (hl : self.mInPlaceLayer = some layer) (hf : self.mInPlaceFeatures ≠ [])
    (hs : a.supportInPlaceEdit layer = true) (hfb : a.featureBased = some fba)
    (hp : (fba.prepare fba.create
        (inPlaceParameters model.toVariantMap layer self.mInPlaceFeatures)
        (QgsExpressionContext.mk [layer] none)).1 = true) :
    ∃ segs : List (List (Event V G)),
      List.Forall₂ (fun p seg => EditsDecidedByCount q layer p.1 p.2 seg)
        (self.mInPlaceFeatures.zip (compatibleOutputs q layer fba
          (QgsExpressionContext.mk [layer] none)
          (fba.prepare fba.create
            (inPlaceParameters model.toVariantMap layer self.mInPlaceFeatures)
            (QgsExpressionContext.mk [layer] none)).2 self.mInPlaceFeatures)) segs
      ∧ (self.run q).2
        = [Event.startEditing, Event.create,
            Event.prepare (inPlaceParameters model.toVariantMap layer self.mInPlaceFeatures)]
          ++ (self.mInPlaceFeatures.zip segs).flatMap (fun p => Event.processFeature p.1 :: p.2)
          ++ [Event.commitChanges]
      ∧ (self.run q).2.filter Event.isEdit = segs.flatten := by
  have hg : (self.mInPlaceFeatures.isEmpty || !a.supportInPlaceEdit layer) = false := by
    cases hfe : self.mInPlaceFeatures with
    | nil => exact absurd hfe hf
    | cons x xs => simp [hs]
  have hrun := run_in_place_eq q self a model layer fba ha hm hl hg hfb
  rw [if_pos hp] at hrun
  refine ⟨(self.mInPlaceFeatures.zip (compatibleOutputs q layer fba
      (QgsExpressionContext.mk [layer] none)
      (fba.prepare fba.create
        (inPlaceParameters model.toVariantMap layer self.mInPlaceFeatures)
        (QgsExpressionContext.mk [layer] none)).2 self.mInPlaceFeatures)).map
      (fun p => featureEdits q layer (featureContext layer p.1) p.1 p.2), ?_, ?_, ?_⟩
  · rw [List.forall₂_map_right_iff, List.forall₂_same]
    intro p _
    exact featureEdits_decided q layer p.1 p.2
  · rw [hrun]
    rw [zip_map_flatMap (fun p => featureEdits q layer (featureContext layer p.1) p.1 p.2)
      (fun f seg => Event.processFeature f :: seg)]
  · rw [hrun]
    simp only [List.filter_append, filter_edits_flatMap]
    simp [List.filter_cons, Event.isEdit]

theorem run_in_place_edits_witness :
    (∃ segs : List (List (Event (Option Int) Int)),
      List.Forall₂ (fun p seg => EditsDecidedByCount demoQgis demoLayer p.1 p.2 seg)
        ((demoInPlace true).mInPlaceFeatures.zip (compatibleOutputs demoQgis demoLayer
          (demoFeatureBased true) (QgsExpressionContext.mk [demoLayer] none)
          ((demoFeatureBased true).prepare (demoFeatureBased true).create
            (inPlaceParameters demoModel.toVariantMap demoLayer
              (demoInPlace true).mInPlaceFeatures)
            (QgsExpressionContext.mk [demoLayer] none)).2
          (demoInPlace true).mInPlaceFeatures)) segs
      ∧ ((demoInPlace true).run demoQgis).2
        = [Event.startEditing, Event.create,
            Event.prepare (inPlaceParameters demoModel.toVariantMap demoLayer
              (demoInPlace true).mInPlaceFeatures)]
          ++ ((demoInPlace true).mInPlaceFeatures.zip segs).flatMap
              (fun p => Event.processFeature p.1 :: p.2)
          ++ [Event.commitChanges]
      ∧ ((demoInPlace true).run demoQgis).2.filter Event.isEdit = segs.flatten)
    ∧ ((demoInPlace true).run demoQgis).2.filter Event.isEdit
      = [Event.deleteFeature 1, Event.changeGeometry 2 21,
          Event.changeAttributeValues 2 [(1, some 7)] [(1, some 4)],
          Event.addFeatures [QgsFeature.mk 0 30 [some 5, some 6],
            QgsFeature.mk 0 31 [some 5, some 6]]] :=
  ⟨run_in_place_edits demoQgis (demoInPlace true) (demoAlgorithm true) demoModel demoLayer
      (demoFeatureBased true) rfl rfl rfl (by decide) rfl rfl rfl,
    by decide⟩

theorem indexOf_field {fields : List QgsField}
    (hnodup : (fields.map (fun f => f.name)).Nodup) (n : Nat) (h : n < fields.length) :
    QgsFields.indexOf fields (fields[n]).name = (n : Int) := by
  unfold QgsFields.indexOf
  have hlen : n < (fields.map (fun f => f.name)).length := by simpa using h
  have hget : (fields.map (fun f => f.name))[n] = (fields[n]).name := by simp
  have hidx := List.indexOf_getElem hnodup n hlen
  rw [hget] at hidx
  simp [hidx, h]

theorem insert_above {V : Type} (m : QgsAttributeMap V) (k : Int) (v : V)
    (h : ∀ p ∈ m, p.1 < k) : QgsAttributeMap.insert m k v = m ++ [(k, v)] := by
  unfold QgsAttributeMap.insert
  induction m with
  | nil => rfl
  | cons p rest ih =>
    have hp : p.1 < k := h p (List.mem_cons_self _ _)
    have hne : ¬ k = p.1 := by omega
    have hlt : ¬ k < p.1 := by omega
    obtain ⟨k0, v0⟩ := p
    simp only [QMap.insert, List.cons_append]
    simp only at hne hlt
    simp only [hne, hlt, if_false, decide_False, Bool.false_eq_true]
    rw [ih (fun p hp => h p (List.mem_cons_of_mem _ hp))]

theorem attribute_fold {V G : Type} (q : Qgis V G) (fields : List QgsField)
    (o f : QgsFeature V G) (hnodup : (fields.map (fun f => f.name)).Nodup) (n : Nat)
    (hn : n ≤ fields.length) :
    (fields.take n).foldl (attributeStep q fields o f) ([], [])
      = ((((List.range n).map Int.ofNat).filter
            (fun i => q.variantNe (o.attribute q.invalid i) (f.attribute q.invalid i))).map
            (fun i => (i, o.attribute q.invalid i)),
         (((List.range n).map Int.ofNat).filter
            (fun i => q.variantNe (o.attribute q.invalid i) (f.attribute q.invalid i))).map
            (fun i => (i, f.attribute q.invalid i))) := by
  induction n with
  | zero => simp
  | succ n ih =>
    have hlt : n < fields.length := hn
    have hbelow : ∀ (x : QgsFeature V G), ∀ p ∈ (((List.range n).map Int.ofNat).filter
        (fun i => q.variantNe (o.attribute q.invalid i) (f.attribute q.invalid i))).map
        (fun i => (i, x.attribute q.invalid i)), p.1 < (n : Int) := by
      intro x p hp
      simp only [List.mem_map, List.mem_filter, List.mem_range] at hp
      obtain ⟨i, ⟨⟨j, hj, rfl⟩, _⟩, rfl⟩ := hp
      simpa using hj
    rw [List.take_succ, List.foldl_append, ih (Nat.le_of_lt hlt), List.getElem?_eq_getElem hlt]
    simp only [Option.toList, List.foldl_cons, List.foldl_nil, attributeStep,
      indexOf_field hnodup n hlt, List.range_succ, List.map_append, List.filter_append,
      List.map_cons, List.map_nil]
    simp only [Int.ofNat_eq_coe] at hbelow ⊢
    by_cases hne : q.variantNe (o.attribute q.invalid (n : Int)) (f.attribute q.invalid (n : Int))
        = true
    · simp only [hne, if_true, List.filter_cons, List.filter_nil, List.map_cons, List.map_nil]
      rw [insert_above _ _ _ (hbelow o), insert_above _ _ _ (hbelow f)]
    · simp only [hne, if_false, List.filter_cons, List.filter_nil, List.map_nil,
        List.append_nil, Bool.false_eq_true]

theorem lookup_map_self {V : Type} (g : Int → V) (l : List Int) (i : Int) (hi : i ∈ l) :
    List.lookup i (l.map (fun j => (j, g j))) = some (g i) := by
  induction l with
  | nil => simp at hi
  | cons x xs ih =>
    simp only [List.map_cons, List.lookup_cons]
    by_cases hx : i = x
    · subst hx
      simp
    · have hb : (i == x) = false := by simpa using hx
      rw [hb]
      rcases List.mem_cons.1 hi with h | h
      · exact absurd h hx
      · exact ih h

theorem featureEdits_single {V G : Type} (q : Qgis V G) (layer : QgsVectorLayer)
    (context : QgsExpressionContext V G) (f o : QgsFeature V G)
    (hnodup : (layer.fields.map (fun fd => fd.name)).Nodup) :
    SingleOutputEdits q layer f o (featureEdits q layer context f [o]) := by
  have hfold := attribute_fold q layer.fields o f hnodup layer.fields.length (Nat.le_refl _)
  rw [List.take_length] at hfold
  have hseg : featureEdits q layer context f [o]
      = (if q.geometryEquals o.geometry f.geometry then []
          else [Event.changeGeometry f.id o.geometry])
        ++ (if q.attributesNe o.attributes f.attributes then
              [Event.changeAttributeValues f.id
                ((changedIndices q layer o f).map (fun i => (i, o.attribute q.invalid i)))
                ((changedIndices q layer o f).map (fun i => (i, f.attribute q.invalid i)))]
            else []) := by
    simp only [featureEdits, hfold, changedIndices]
    by_cases hg : q.geometryEquals o.geometry f.geometry = true
    · by_cases hat : q.attributesNe o.attributes f.attributes = true
      · simp [hg, hat]
      · simp [hg, hat]
    · by_cases hat : q.attributesNe o.attributes f.attributes = true
      · simp [hg, hat]
      · simp [hg, hat]
  refine ⟨(changedIndices q layer o f).map (fun i => (i, o.attribute q.invalid i)),
    (changedIndices q layer o f).map (fun i => (i, f.attribute q.invalid i)),
    hseg, ?_, ?_, ?_, ?_⟩
  · simp [QMap.keys, Function.comp_def]
  · simp [QMap.keys, Function.comp_def]
  · intro i hi
    exact ⟨lookup_map_self _ _ i hi, lookup_map_self _ _ i hi⟩
  · intro hg hat
    rw [hseg]
    simp [hg, hat]

/-- C8: on the in-place, feature-based path of `run`, on a layer whose field names are
pairwise distinct, the trace of `run` is `startEditing`, `create`, `prepare`, then for each
feature `f` of `inPlaceFeatures`, in order, `processFeature` followed by a segment of edits,
then `commitChanges`; whenever the compatible output for `f` is exactly one feature `o`, the
segment of `f` is `changeGeometry(f.id, o.geometry)` iff the geometries are not equal,
followed by `changeAttributeValues(f.id, new, old)` iff the attribute lists differ, `new` and
`old` having the same keys, namely the field indices `i` with `o.attribute(i) !=
f.attribute(i)`, with `new[i] = o.attribute(i)` and `old[i] = f.attribute(i)`; when `o` equals
`f` in geometry and attributes the segment is empty, so no edit is issued for `f`. -/
theorem run_single_output_edits {V G : Type} (q : Qgis V G) (self : ProcessingAlgorithm V G)
    (a : QgsProcessingAlgorithm V G) (model : ProcessingAlgorithmParametersModel V)
    (layer : QgsVectorLayer) (fba : QgsProcessingFeatureBasedAlgorithm V G)
    (ha : self.mAlgorithm = some a) (hm : self.mAlgorithmParametersModel = some model)
    (hl : self.mInPlaceLayer = some layer) (hf : self.mInPlaceFeatures ≠ [])
    (hs : a.supportInPlaceEdit layer = true) (hfb : a.featureBased = some fba)
    (hp : (fba.prepare fba.create
        (inPlaceParameters model.toVariantMap layer self.mInPlaceFeatures)
        (QgsExpressionContext.mk [layer] none)).1 = true)
    (hnodup : (layer.fields.map (fun fd => fd.name)).Nodup) :
    ∃ segs : List (List (Event V G)),
      (self.run q).2
        = [Event.startEditing, Event.create,
            Event.prepare (inPlaceParameters model.toVariantMap layer self.mInPlaceFeatures)]
          ++ (self.mInPlaceFeatures.zip segs).flatMap (fun p => Event.processFeature p.1 :: p.2)
          ++ [Event.commitChanges]
      ∧ List.Forall₂ (fun p seg => ∀ o, p.2 = [o] → SingleOutputEdits q layer p.1 o seg)
        (self.mInPlaceFeatures.zip (compatibleOutputs q layer fba
          (QgsExpressionContext.mk [layer] none)
          (fba.prepare fba.create
            (inPlaceParameters model.toVariantMap layer self.mInPlaceFeatures)
            (QgsExpressionContext.mk [layer] none)).2 self.mInPlaceFeatures)) segs := by
  have hg : (self.mInPlaceFeatures.isEmpty || !a.supportInPlaceEdit layer) = false := by
    cases hfe : self.mInPlaceFeatures with
    | nil => exact absurd hfe hf
    | cons x xs => simp [hs]
  have hrun := run_in_place_eq q self a model layer fba ha hm hl hg hfb
  rw [if_pos hp] at hrun
  refine ⟨(self.mInPlaceFeatures.zip (compatibleOutputs q layer fba
      (QgsExpressionContext.mk [layer] none)
      (fba.prepare fba.create
        (inPlaceParameters model.toVariantMap layer self.mInPlaceFeatures)
        (QgsExpressionContext.mk [layer] none)).2 self.mInPlaceFeatures)).map
      (fun p => featureEdits q layer (featureContext layer p.1) p.1 p.2), ?_, ?_⟩
  · rw [hrun]
    rw [zip_map_flatMap (fun p => featureEdits q layer (featureContext layer p.1) p.1 p.2)
      (fun f seg => Event.processFeature f :: seg)]
  · rw [List.forall₂_map_right_iff, List.forall₂_same]
    intro p _ o ho
    rw [ho]
    exact featureEdits_single q layer (featureContext layer p.1) p.1 o hnodup

theorem run_single_output_edits_witness :
    (∃ segs : List (List (Event (Option Int) Int)),
      ((demoInPlace true).run demoQgis).2
        = [Event.startEditing, Event.create,
            Event.prepare (inPlaceParameters demoModel.toVariantMap demoLayer
              (demoInPlace true).mInPlaceFeatures)]
          ++ ((demoInPlace true).mInPlaceFeatures.zip segs).flatMap
              (fun p => Event.processFeature p.1 :: p.2)
          ++ [Event.commitChanges]
      ∧ List.Forall₂
        (fun p seg => ∀ o, p.2 = [o] → SingleOutputEdits demoQgis demoLayer p.1 o seg)
        ((demoInPlace true).mInPlaceFeatures.zip (compatibleOutputs demoQgis demoLayer
          (demoFeatureBased true) (QgsExpressionContext.mk [demoLayer] none)
          ((demoFeatureBased true).prepare (demoFeatureBased true).create
            (inPlaceParameters demoModel.toVariantMap demoLayer
              (demoInPlace true).mInPlaceFeatures)
            (QgsExpressionContext.mk [demoLayer] none)).2
          (demoInPlace true).mInPlaceFeatures)) segs)
    ∧ compatibleOutputs demoQgis demoLayer (demoFeatureBased true)
        (QgsExpressionContext.mk [demoLayer] none) (demoFeatureBased true).create
        [QgsFeature.mk 2 20 [some 3, some 4], QgsFeature.mk 4 40 [some 8, some 9]]
      = [[QgsFeature.mk 2 21 [some 3, some 7]], [QgsFeature.mk 4 40 [some 8, some 9]]]
    ∧ ((ProcessingAlgorithm.mk "demo:alg" (some (demoAlgorithm true)) (some demoModel)
          (some demoLayer)
          [QgsFeature.mk 2 20 [some 3, some 4], QgsFeature.mk 4 40 [some 8, some 9]]).run
        demoQgis).2
      = [Event.startEditing, Event.create,
          Event.prepare [("DISTANCE", ParameterValue.variant (some 5)),
            ("INPUT", ParameterValue.featureSourceDefinition "layer1" false (-1)
              "$id IN (2,4)"),
            ("OUTPUT", ParameterValue.string "memory:")],
          Event.processFeature (QgsFeature.mk 2 20 [some 3, some 4]),
          Event.changeGeometry 2 21,
          Event.changeAttributeValues 2 [(1, some 7)] [(1, some 4)],
          Event.processFeature (QgsFeature.mk 4 40 [some 8, some 9]),
          Event.commitChanges] :=
  ⟨run_single_output_edits demoQgis (demoInPlace true) (demoAlgorithm true) demoModel demoLayer
      (demoFeatureBased true) rfl rfl rfl (by decide) rfl rfl rfl (by decide),
    by decide, by decide⟩

end QField
